import Mathlib

/-!
# Verification of the InputField / DataTable component logic

A shallow embedding of the sort/select logic of the `DataTable` component and
the local UI logic of the `InputField` component from `src/src/App.tsx`,
together with theorems settling the specification claims.

JavaScript values occurring as row fields are modelled by `JsValue`
(numbers restricted to integers, strings, and `undefined` for a missing
property).  JavaScript's abstract relational comparison `<` is modelled by
`jsLt`; for strings it is lexicographic, otherwise both operands are coerced
to numbers (`undefined` coerces to NaN, making both `<` and `>` false).
`Array.prototype.sort` (stable since ES2019) is modelled by the stable
`List.mergeSort` with the relation `comparator a b ≤ 0`.
-/

namespace UzenceTable

/-- A JavaScript value stored in a row field: an (integer) number, a string,
or `undefined` (the result of reading a property the row lacks). -/
inductive JsValue where
  | num (n : Int)
  | str (s : String)
  | undefined
deriving DecidableEq, Repr

/-- JavaScript `ToNumber` on a string, as `Option Int` with `none` for NaN:
the empty string converts to `0`, otherwise the string must spell an
integer. -/
def strToNumber (s : String) : Option Int :=
  if s = "" then some 0 else s.toInt?

/-- JavaScript `ToNumber`, `none` standing for NaN. -/
def jsToNumber : JsValue → Option Int
  | .num n => some n
  | .str s => strToNumber s
  | .undefined => none

/-- JavaScript `a < b` (abstract relational comparison): lexicographic when
both operands are strings, otherwise numeric after coercion; any comparison
involving NaN is false. -/
def jsLt : JsValue → JsValue → Bool
  | .str x, .str y => decide (x < y)
  | a, b =>
    match jsToNumber a, jsToNumber b with
    | some m, some n => decide (m < n)
    | _, _ => false

/-- A row (a record `T extends Record<string, any>`): an association list of
property names to values. -/
abbrev Row : Type := List (String × JsValue)

/-- Property access `r[k]`: the value stored under `k`, or `undefined` when
the row lacks the property. -/
def getField (r : Row) (k : String) : JsValue :=
  match r.find? (fun p => p.1 == k) with
  | some p => p.2
  | none => .undefined

/-- A sort direction, `'asc' | 'desc'`. -/
inductive Direction where
  | asc
  | desc
deriving DecidableEq, Repr

/-- The `sortConfig` state value: a column key and a direction. -/
structure SortConfig where
  key : String
  direction : Direction
deriving DecidableEq, Repr

/-- The comparator passed to `sort` in `sortedData` (App.tsx lines 170–181):
`-1`/`1` according to `<` and `>` on the two rows' `sortConfig.key` fields,
flipped for `'desc'`, and `0` when neither `<` nor `>` holds. -/
def rowCompare (cfg : SortConfig) (a b : Row) : Int :=
  let aValue := getField a cfg.key
  let bValue := getField b cfg.key
  if jsLt aValue bValue then
    (if cfg.direction = .asc then -1 else 1)
  else if jsLt bValue aValue then
    (if cfg.direction = .asc then 1 else -1)
  else 0

/-- The ordering used by the stable sort: `a` may stay before `b` exactly
when the comparator is non-positive. -/
def rowLe (cfg : SortConfig) (a b : Row) : Bool :=
  decide (rowCompare cfg a b ≤ 0)

/-- `sortedData` (App.tsx lines 167–182): the original `data` when no sort
configuration is active, otherwise a stable sort of a copy of `data` by the
comparator. -/
def sortedData (data : List Row) (cfg : Option SortConfig) : List Row :=
  match cfg with
  | none => data
  | some c => data.mergeSort (rowLe c)

/-- `handleSort` (App.tsx lines 184–191): clicking the sort trigger of the
column with key `columnKey` sets the sort configuration to that key, with
direction `'desc'` when that very key was already sorted `'asc'`, and
`'asc'` in every other case. -/
def handleSort (sortConfig : Option SortConfig) (columnKey : String) :
    Option SortConfig :=
  let newDirection :=
    if sortConfig.any (fun c => c.key == columnKey && c.direction == .asc)
    then Direction.desc else Direction.asc
  some ⟨columnKey, newDirection⟩

/-- A row key, `string | number` (the return type of `keyExtractor`). -/
inductive Key where
  | str (s : String)
  | num (n : Int)
deriving DecidableEq, Repr

/-- A key extractor `(record, index) => key`.  The component's default is
`(record, index) => index`. -/
abbrev KeyFn : Type := Row → Nat → Key

/-- The default `keyExtractor`, returning the row index. -/
def defaultKeyFn : KeyFn := fun _ index => .num index

/-- The `selectedRows` state value, modelling a JavaScript `Set` of keys:
a list in insertion order, without duplicates when built by the `Set`
operations below. -/
abbrev SelectionSet : Type := List Key

/-- `Set.prototype.has`. -/
def setHas (s : SelectionSet) (k : Key) : Bool :=
  s.contains k

/-- `Set.prototype.add`: appends `k` unless it is already present. -/
def setAdd (s : SelectionSet) (k : Key) : SelectionSet :=
  if setHas s k then s else s ++ [k]

/-- `Set.prototype.delete`: removes `k`. -/
def setDelete (s : SelectionSet) (k : Key) : SelectionSet :=
  s.filter (fun x => x ≠ k)

/-- `new Set(list)`: inserts the elements of `list` in order. -/
def setOfList (l : List Key) : SelectionSet :=
  l.foldl setAdd []

/-- The rows passed to `onRowSelect` inside `handleRowSelect` (App.tsx
lines 205–207): `data.filter((_, index) =>
sel.has(keyExtractor(data[index], index)))`, where the predicate reads the
record through `data[index]`. -/
def selectedRecords (data : List Row) (keyExtractor : KeyFn)
    (sel : SelectionSet) : List Row :=
  (data.enum.filter
    (fun p => setHas sel (keyExtractor (data.getD p.1 []) p.1))).map Prod.snd

/-- `handleRowSelect` (App.tsx lines 193–210): updates the selection set by
adding or deleting `rowKey` according to `checked`, and, when an
`onRowSelect` callback is supplied, invokes it once with the rows whose key
lies in the **updated** set.  The result is the new selection set together
with the argument of that single invocation (`none` when no callback is
supplied). -/
def handleRowSelect (data : List Row) (keyExtractor : KeyFn)
    (hasCallback : Bool) (selectedRows : SelectionSet) (rowKey : Key)
    (checked : Bool) : SelectionSet × Option (List Row) :=
  let newSelectedRows :=
    if checked then setAdd selectedRows rowKey
    else setDelete selectedRows rowKey
  (newSelectedRows,
    if hasCallback then some (selectedRecords data keyExtractor newSelectedRows)
    else none)

/-- `handleSelectAll` (App.tsx lines 212–221): checking selects the keys of
every row and reports the whole `data` array; unchecking empties the
selection and reports the empty list. -/
def handleSelectAll (data : List Row) (keyExtractor : KeyFn)
    (hasCallback : Bool) (checked : Bool) : SelectionSet × Option (List Row) :=
  if checked then
    (setOfList (data.enum.map (fun p => keyExtractor p.2 p.1)),
      if hasCallback then some data else none)
  else
    ([], if hasCallback then some [] else none)

/-- JavaScript truthiness of a field value (`0`, `''` and `undefined` are
falsy). -/
def jsTruthy : JsValue → Bool
  | .num n => decide (n ≠ 0)
  | .str s => decide (s ≠ "")
  | .undefined => false

/-- JavaScript `String(v)` for the values of our model. -/
def jsToString : JsValue → String
  | .num n => toString n
  | .str s => s
  | .undefined => "undefined"

/-- The default cell text `String(record[column.dataIndex] || '-')`
(App.tsx line 321). -/
def cellText (v : JsValue) : String :=
  if jsTruthy v then jsToString v else "-"

/-- A column descriptor.  The optional custom `render` function (an
arbitrary React node producer) is outside the model; cells are rendered
with the default `String(record[column.dataIndex] || '-')`. -/
structure Column where
  key : String
  title : String
  dataIndex : String
  sortable : Bool
deriving DecidableEq, Repr

/-- The props of `DataTable`.  The `onRowSelect` callback is abstracted to
its presence. -/
structure TableProps where
  data : List Row
  columns : List Column
  loading : Bool
  selectable : Bool
  hasOnRowSelect : Bool
  keyExtractor : KeyFn

/-- The internal component state held across renders by `useState`:
`selectedRows` and `sortConfig`. -/
structure TableState where
  selectedRows : SelectionSet
  sortConfig : Option SortConfig
deriving DecidableEq, Repr

/-- The state of a freshly mounted `DataTable`. -/
def initTableState : TableState := ⟨[], none⟩

/-- A user interaction with the table. -/
inductive TableEvent where
  | sortClick (columnKey : String)
  | rowToggle (rowKey : Key) (checked : Bool)
  | selectAllToggle (checked : Bool)
deriving DecidableEq, Repr

/-- The state transition performed by one interaction. -/
def tableStep (p : TableProps) (s : TableState) : TableEvent → TableState
  | .sortClick k => ⟨s.selectedRows, handleSort s.sortConfig k⟩
  | .rowToggle key c =>
      ⟨(handleRowSelect p.data p.keyExtractor p.hasOnRowSelect
          s.selectedRows key c).1, s.sortConfig⟩
  | .selectAllToggle c =>
      ⟨(handleSelectAll p.data p.keyExtractor p.hasOnRowSelect c).1,
        s.sortConfig⟩

/-- The state after a history of interactions on a fresh mount. -/
def runTable (p : TableProps) (events : List TableEvent) : TableState :=
  events.foldl (tableStep p) initTableState

/-- `Set.prototype.size` of a selection set (duplicates, which the `Set`
operations never produce, are not counted twice). -/
def setSize (s : SelectionSet) : Nat :=
  s.dedup.length

/-- The sort indicator shown in a sortable column header (App.tsx
lines 279–287). -/
inductive SortIndicator where
  | upActive
  | downActive
  | upDimmed
  | noIndicator
deriving DecidableEq, Repr

/-- The header cell of one column: its title and sort indicator. -/
def headerCell (cfg : Option SortConfig) (c : Column) :
    String × SortIndicator :=
  (c.title,
    if c.sortable then
      match cfg with
      | some sc =>
          if sc.key == c.key then
            (if sc.direction = .asc then .upActive else .downActive)
          else .upDimmed
      | none => .upDimmed
    else .noIndicator)

/-- The observable render output of `DataTable` (App.tsx lines 226–332):
the loading view, the empty view, or the table with its select-all
checkbox state, header cells, and body rows (key, selected flag, cell
texts). -/
inductive TableView where
  | loadingView
  | emptyView
  | table (showSelectAll : Bool) (allSelected : Bool) (indeterminate : Bool)
      (header : List (String × SortIndicator))
      (rows : List (Key × Bool × List String))
deriving DecidableEq, Repr

/-- The render function of `DataTable`: output as a function of props and
current state. -/
def tableRender (p : TableProps) (s : TableState) : TableView :=
  if p.loading then .loadingView
  else if p.data.length = 0 then .emptyView
  else
    let sorted := sortedData p.data s.sortConfig
    .table p.selectable
      (setSize s.selectedRows = p.data.length ∧ 0 < p.data.length)
      (0 < setSize s.selectedRows ∧ setSize s.selectedRows < p.data.length)
      (p.columns.map (headerCell s.sortConfig))
      (sorted.enum.map (fun q =>
        let rowKey := p.keyExtractor q.2 q.1
        (rowKey, setHas s.selectedRows rowKey,
          p.columns.map (fun c => cellText (getField q.2 c.dataIndex)))))

/-- Whether a value is a number. -/
def isNum : JsValue → Bool
  | .num _ => true
  | _ => false

/-- Whether a value is a string. -/
def isStr : JsValue → Bool
  | .str _ => true
  | _ => false

/-- "In non-decreasing order of the rows' field `k`" (the spec's sorted-view
property): no later row's field compares strictly below an earlier row's
field. -/
def nonDecreasingOn (k : String) (l : List Row) : Prop :=
  l.Pairwise (fun a b => jsLt (getField b k) (getField a k) = false)

/-- "In non-increasing order of the rows' field `k`". -/
def nonIncreasingOn (k : String) (l : List Row) : Prop :=
  l.Pairwise (fun a b => jsLt (getField a k) (getField b k) = false)

/-- The array spread `[...data]` (App.tsx line 170): a fresh array with the
same elements. -/
def spreadCopy (data : List Row) : List Row := data

/-- The sorted-view computation with the host's array tracked through it:
the code sorts the spread copy `[...data]` in place and never writes to
`data`.  First component: the host's array after the computation; second:
the displayed view. -/
def computeSortedView (data : List Row) (cfg : Option SortConfig) :
    List Row × List Row :=
  match cfg with
  | none => (data, data)
  | some c => (data, (spreadCopy data).mergeSort (rowLe c))

/-- A row whose field `k` is the number 2. -/
def c1Row2 : Row := [("k", .num 2)]

/-- A row lacking the field `k`. -/
def c1RowU : Row := []

/-- A row whose field `k` is the number 1. -/
def c1Row1 : Row := [("k", .num 1)]

/-- A data array mixing rows with and without the sort field. -/
def c1Data : List Row := [c1Row2, c1RowU, c1RowU, c1Row1]

/-- An ascending sort configuration on the field `k`. -/
def c1Cfg : SortConfig := ⟨"k", .asc⟩

/-- Concrete table props: one row, one sortable column. -/
def c7Props : TableProps :=
  ⟨[[("a", .num 1)]], [⟨"a", "A", "a", true⟩], false, false, false,
    defaultKeyFn⟩

end UzenceTable

namespace UzenceInput

open UzenceTable

/-- The `type` prop of `InputField`: `'text' | 'password' | 'email'`. -/
inductive InputType where
  | text
  | password
  | email
deriving DecidableEq, Repr

/-- The props of `InputField`.  The `onChange` callback is abstracted to
its presence; styling-only props (`variant`, `size`, `placeholder`) are
outside the observable model. -/
structure InputProps where
  value : String
  hasOnChange : Bool
  label : Option String
  helperText : Option String
  errorMessage : Option String
  disabled : Bool
  invalid : Bool
  type : InputType
  showClearButton : Bool
  loading : Bool
deriving DecidableEq, Repr

/-- The local `useState` state of `InputField`: `showPassword` and
`isFocused`. -/
structure InputState where
  showPassword : Bool
  isFocused : Bool
deriving DecidableEq, Repr

/-- The state of a freshly mounted `InputField`. -/
def initInputState : InputState := ⟨false, false⟩

/-- `setShowPassword(!showPassword)` (App.tsx line 100). -/
def togglePassword (showPassword : Bool) : Bool :=
  !showPassword

/-- The effective `type` attribute of the `<input>` (App.tsx line 39):
`type === 'password' && showPassword ? 'text' : type`. -/
def inputType (ty : InputType) (showPassword : Bool) : InputType :=
  if ty == .password && showPassword then .text else ty

/-- Whether the password-visibility toggle button is rendered (App.tsx
line 97): `!loading && type === 'password'`. -/
def toggleVisible (loading : Bool) (ty : InputType) : Bool :=
  !loading && ty == .password

/-- Whether the clear button is rendered (App.tsx line 108):
`!loading && showClearButton && value && type !== 'password'`. -/
def clearVisible (loading showClearButton : Bool) (value : String)
    (ty : InputType) : Bool :=
  !loading && showClearButton && value != "" && ty != .password

/-- `handleClear` (App.tsx lines 63–68): when an `onChange` handler is
supplied it is invoked once with a synthetic event whose value is the
empty string; otherwise nothing happens.  The result is the argument of
that single invocation. -/
def handleClear (hasOnChange : Bool) : Option String :=
  if hasOnChange then some "" else none

/-- A user interaction with the input field. -/
inductive InputEvent where
  | focus
  | blur
  | toggleShow
deriving DecidableEq, Repr

/-- The state transition performed by one interaction.  The visibility
toggle only exists (and can only fire) when it is rendered. -/
def inputStep (p : InputProps) (s : InputState) : InputEvent → InputState
  | .focus => ⟨s.showPassword, true⟩
  | .blur => ⟨s.showPassword, false⟩
  | .toggleShow =>
      if toggleVisible p.loading p.type then
        ⟨togglePassword s.showPassword, s.isFocused⟩
      else s

/-- The state after a history of interactions on a fresh mount. -/
def runInput (p : InputProps) (events : List InputEvent) : InputState :=
  events.foldl (inputStep p) initInputState

/-- The observable render output of `InputField` (App.tsx lines 70–132). -/
structure InputRender where
  labelText : Option String
  renderedType : InputType
  value : String
  isDisabled : Bool
  ariaInvalid : Bool
  focusRing : Bool
  showsLoading : Bool
  showsToggle : Bool
  toggleShowsHideIcon : Bool
  showsClear : Bool
  errorText : Option String
  helperLine : Option String
deriving DecidableEq, Repr

/-- The render function of `InputField`: output as a function of props and
current state. -/
def inputRender (p : InputProps) (s : InputState) : InputRender where
  labelText := p.label
  renderedType := inputType p.type s.showPassword
  value := p.value
  isDisabled := p.disabled
  ariaInvalid := p.invalid || p.errorMessage.isSome
  focusRing := s.isFocused
  showsLoading := p.loading
  showsToggle := toggleVisible p.loading p.type
  toggleShowsHideIcon := s.showPassword
  showsClear := clearVisible p.loading p.showClearButton p.value p.type
  errorText := p.errorMessage
  helperLine := match p.errorMessage with
    | some _ => none
    | none => p.helperText

/-- Concrete input props: a password field with no handlers. -/
def c7Input : InputProps :=
  ⟨"", false, none, none, none, false, false, .password, false, false⟩

end UzenceInput

/-!
## Theorems

Helper lemmas about the comparator and the selection-set operations, then
one theorem per specification claim.
-/

namespace UzenceTable

/-- JavaScript `<` is asymmetric on our values. -/
theorem jsLt_asymm (a b : JsValue) (h : jsLt a b = true) : jsLt b a = false := by
  cases a <;> cases b <;> simp only [jsLt, jsToNumber] at h ⊢
  case num.num m n => simp at h ⊢; omega
  case num.str m s =>
    rcases hs : strToNumber s with _ | n <;> simp [hs] at h ⊢
    omega
  case str.num s m =>
    rcases hs : strToNumber s with _ | n <;> simp [hs] at h ⊢
    omega
  case str.str x y => simp at h ⊢; exact le_of_lt h
  all_goals simp_all

/-- Swapping the arguments negates the comparator. -/
theorem rowCompare_swap (cfg : SortConfig) (a b : Row) :
    rowCompare cfg b a = - rowCompare cfg a b := by
  unfold rowCompare
  by_cases h1 : jsLt (getField a cfg.key) (getField b cfg.key) = true
  · have h2 := jsLt_asymm _ _ h1
    cases hd : cfg.direction <;> simp [h1, h2]
  · simp only [Bool.not_eq_true] at h1
    by_cases h2 : jsLt (getField b cfg.key) (getField a cfg.key) = true
    · cases hd : cfg.direction <;> simp [h1, h2]
    · simp only [Bool.not_eq_true] at h2
      simp [h1, h2]

/-- The sort ordering is total. -/
theorem rowLe_total (cfg : SortConfig) (a b : Row) :
    (rowLe cfg a b || rowLe cfg b a) = true := by
  simp only [rowLe, rowCompare_swap cfg a b, Bool.or_eq_true, decide_eq_true_eq]
  omega

/-- For an ascending sort, the ordering holds exactly when the second row's
field is not strictly below the first row's. -/
theorem rowLe_asc_iff (cfg : SortConfig) (hd : cfg.direction = .asc) (a b : Row) :
    rowLe cfg a b = true ↔
      jsLt (getField b cfg.key) (getField a cfg.key) = false := by
  unfold rowLe rowCompare
  by_cases h1 : jsLt (getField a cfg.key) (getField b cfg.key) = true
  · have h2 := jsLt_asymm _ _ h1
    simp [h1, h2, hd]
  · simp only [Bool.not_eq_true] at h1
    by_cases h2 : jsLt (getField b cfg.key) (getField a cfg.key) = true <;>
      simp [h1, h2, hd]

/-- For a descending sort, the ordering holds exactly when the first row's
field is not strictly below the second row's. -/
theorem rowLe_desc_iff (cfg : SortConfig) (hd : cfg.direction = .desc) (a b : Row) :
    rowLe cfg a b = true ↔
      jsLt (getField a cfg.key) (getField b cfg.key) = false := by
  unfold rowLe rowCompare
  by_cases h1 : jsLt (getField a cfg.key) (getField b cfg.key) = true
  · have h2 := jsLt_asymm _ _ h1
    simp [h1, h2, hd]
  · simp only [Bool.not_eq_true] at h1
    by_cases h2 : jsLt (getField b cfg.key) (getField a cfg.key) = true <;>
      simp [h1, h2, hd]

/-- A stable merge sort by a total ordering that is transitive on the
elements of the list produces a pairwise-ordered list. -/
theorem pairwise_mergeSort_local {α : Type} (le : α → α → Bool)
    (total : ∀ a b, (le a b || le b a) = true)
    (l : List α)
    (htrans : ∀ a ∈ l, ∀ b ∈ l, ∀ c ∈ l,
      le a b = true → le b c = true → le a c = true) :
    (l.mergeSort le).Pairwise (fun a b => le a b = true) := by
  have hmap := @List.map_mergeSort {x // x ∈ l} α (fun a b => le a.1 b.1) le
    Subtype.val l.attach (fun a _ b _ => rfl)
  rw [List.attach_map_subtype_val] at hmap
  rw [← hmap, List.pairwise_map]
  exact @List.sorted_mergeSort {x // x ∈ l} (fun a b => le a.1 b.1)
    (fun a b c hab hbc => htrans a.1 a.2 b.1 b.2 c.1 c.2 hab hbc)
    (fun a b => total a.1 b.1) l.attach

/-- On a column whose values are all numbers or all strings, the sort
ordering is transitive. -/
theorem rowLe_trans_of_homogeneous (cfg : SortConfig) (data : List Row)
    (h : (∀ r ∈ data, isNum (getField r cfg.key) = true) ∨
         (∀ r ∈ data, isStr (getField r cfg.key) = true)) :
    ∀ a ∈ data, ∀ b ∈ data, ∀ c ∈ data,
      rowLe cfg a b = true → rowLe cfg b c = true → rowLe cfg a c = true := by
  intro a ha b hb c hc hab hbc
  rcases h with hnum | hstr
  · obtain ⟨x, hx⟩ : ∃ x, getField a cfg.key = .num x := by
      have := hnum a ha; cases hg : getField a cfg.key <;> simp [hg, isNum] at this ⊢
    obtain ⟨y, hy⟩ : ∃ y, getField b cfg.key = .num y := by
      have := hnum b hb; cases hg : getField b cfg.key <;> simp [hg, isNum] at this ⊢
    obtain ⟨z, hz⟩ : ∃ z, getField c cfg.key = .num z := by
      have := hnum c hc; cases hg : getField c cfg.key <;> simp [hg, isNum] at this ⊢
    cases hd : cfg.direction
    · rw [rowLe_asc_iff cfg hd] at hab hbc ⊢
      rw [hx, hy] at hab; rw [hy, hz] at hbc; rw [hx, hz]
      simp [jsLt, jsToNumber] at hab hbc ⊢
      omega
    · rw [rowLe_desc_iff cfg hd] at hab hbc ⊢
      rw [hx, hy] at hab; rw [hy, hz] at hbc; rw [hx, hz]
      simp [jsLt, jsToNumber] at hab hbc ⊢
      omega
  · obtain ⟨x, hx⟩ : ∃ x, getField a cfg.key = .str x := by
      have := hstr a ha; cases hg : getField a cfg.key <;> simp [hg, isStr] at this ⊢
    obtain ⟨y, hy⟩ : ∃ y, getField b cfg.key = .str y := by
      have := hstr b hb; cases hg : getField b cfg.key <;> simp [hg, isStr] at this ⊢
    obtain ⟨z, hz⟩ : ∃ z, getField c cfg.key = .str z := by
      have := hstr c hc; cases hg : getField c cfg.key <;> simp [hg, isStr] at this ⊢
    cases hd : cfg.direction
    · rw [rowLe_asc_iff cfg hd] at hab hbc ⊢
      rw [hx, hy] at hab; rw [hy, hz] at hbc; rw [hx, hz]
      simp only [jsLt, decide_eq_false_iff_not, not_lt] at hab hbc ⊢
      exact le_trans hab hbc
    · rw [rowLe_desc_iff cfg hd] at hab hbc ⊢
      rw [hx, hy] at hab; rw [hy, hz] at hbc; rw [hx, hz]
      simp only [jsLt, decide_eq_false_iff_not, not_lt] at hab hbc ⊢
      exact le_trans hbc hab

/-- **C1** (amended).  The displayed rows are always a permutation of
`data`; when the sort column's values are homogeneous (all numbers, or all
strings — so that the comparator is transitive across the rows of `data`),
the permutation is in non-decreasing order of the rows' sort field for
`'asc'` and non-increasing order for `'desc'`; when no sort configuration
is active the displayed rows equal `data` in its original order. -/
theorem claim1_sorted_view (data : List Row) (cfg : SortConfig) :
    (sortedData data (some cfg)).Perm data
    ∧ sortedData data none = data
    ∧ (((∀ r ∈ data, isNum (getField r cfg.key) = true) ∨
        (∀ r ∈ data, isStr (getField r cfg.key) = true)) →
       (cfg.direction = .asc →
          nonDecreasingOn cfg.key (sortedData data (some cfg)))
       ∧ (cfg.direction = .desc →
          nonIncreasingOn cfg.key (sortedData data (some cfg)))) := by
  refine ⟨List.mergeSort_perm data (rowLe cfg), rfl, fun h => ⟨?_, ?_⟩⟩
  · intro hd
    have hp := pairwise_mergeSort_local (rowLe cfg) (rowLe_total cfg) data
      (rowLe_trans_of_homogeneous cfg data h)
    exact hp.imp (fun hab => (rowLe_asc_iff cfg hd _ _).mp hab)
  · intro hd
    have hp := pairwise_mergeSort_local (rowLe cfg) (rowLe_total cfg) data
      (rowLe_trans_of_homogeneous cfg data h)
    exact hp.imp (fun hab => (rowLe_desc_iff cfg hd _ _).mp hab)

/-- **C1** (counterexample).  On the data array `[{k: 2}, {}, {}, {k: 1}]`
with an active ascending sort on `k`, the displayed rows are *not* a
permutation of the data in non-decreasing order of field `k`: the stable
sort never compares the rows holding 2 and 1 (each compares equal to the
key-less rows between them), leaves the array unchanged, and displays 2
before 1. -/
theorem claim1_counterexample :
    ¬ ((sortedData c1Data (some c1Cfg)).Perm c1Data
        ∧ nonDecreasingOn c1Cfg.key (sortedData c1Data (some c1Cfg))) := by
  have he : sortedData c1Data (some c1Cfg) = [c1Row2, c1RowU, c1RowU, c1Row1] := by
    simp [sortedData, c1Data, List.mergeSort, List.splitInTwo, List.splitAt,
      List.splitAt.go, List.merge, rowLe, rowCompare, getField, jsLt,
      jsToNumber, c1Row2, c1RowU, c1Row1, List.find?]
  intro hcl
  have := hcl.2
  rw [he] at this
  unfold nonDecreasingOn at this
  revert this
  decide

/-- Witness for **C1**: a two-row all-number column satisfies the
homogeneity hypothesis of the orderedness conjunct, and the theorem
applies. -/
theorem claim1_witness :
    ((∀ r ∈ [([("k", JsValue.num 2)] : Row), [("k", JsValue.num 1)]],
        isNum (getField r (SortConfig.mk "k" .asc).key) = true) ∨
     (∀ r ∈ [([("k", JsValue.num 2)] : Row), [("k", JsValue.num 1)]],
        isStr (getField r (SortConfig.mk "k" .asc).key) = true))
    ∧ (sortedData [[("k", JsValue.num 2)], [("k", JsValue.num 1)]]
          (some ⟨"k", .asc⟩)).Perm
            [[("k", JsValue.num 2)], [("k", JsValue.num 1)]]
    ∧ sortedData [[("k", JsValue.num 2)], [("k", JsValue.num 1)]] none
        = [[("k", JsValue.num 2)], [("k", JsValue.num 1)]]
    ∧ ((SortConfig.mk "k" .asc).direction = .asc →
        nonDecreasingOn "k" (sortedData
          [[("k", JsValue.num 2)], [("k", JsValue.num 1)]] (some ⟨"k", .asc⟩)))
    ∧ ((SortConfig.mk "k" .asc).direction = .desc →
        nonIncreasingOn "k" (sortedData
          [[("k", JsValue.num 2)], [("k", JsValue.num 1)]] (some ⟨"k", .asc⟩))) :=
  ⟨Or.inl (by decide),
    (claim1_sorted_view [[("k", JsValue.num 2)], [("k", JsValue.num 1)]]
      ⟨"k", .asc⟩).1,
    (claim1_sorted_view [[("k", JsValue.num 2)], [("k", JsValue.num 1)]]
      ⟨"k", .asc⟩).2.1,
    ((claim1_sorted_view [[("k", JsValue.num 2)], [("k", JsValue.num 1)]]
      ⟨"k", .asc⟩).2.2 (Or.inl (by decide))).1,
    ((claim1_sorted_view [[("k", JsValue.num 2)], [("k", JsValue.num 1)]]
      ⟨"k", .asc⟩).2.2 (Or.inl (by decide))).2⟩

/-- An enumerated element read back through its index is itself. -/
theorem getD_enum_mem (data : List Row) (p : Nat × Row) (hp : p ∈ data.enum) :
    data.getD p.1 [] = p.2 := by
  have := List.mem_enum_iff_getElem?.mp hp
  rw [List.getD_eq_getElem?_getD, this]
  rfl

/-- **C2**.  After a single row checkbox toggle, the `onRowSelect` callback
(when provided) is invoked exactly once, with precisely those records of
`data` whose extracted key belongs to the updated selection set, listed in
the original order of `data` (a sublist of `data`); when no callback is
provided nothing is invoked. -/
theorem claim2_selection_callback (data : List Row) (ke : KeyFn)
    (sel : SelectionSet) (rowKey : Key) (checked : Bool) :
    (handleRowSelect data ke true sel rowKey checked).2
      = some ((data.enum.filter (fun p =>
          setHas (handleRowSelect data ke true sel rowKey checked).1
            (ke p.2 p.1))).map Prod.snd)
    ∧ ((data.enum.filter (fun p =>
          setHas (handleRowSelect data ke true sel rowKey checked).1
            (ke p.2 p.1))).map Prod.snd).Sublist data
    ∧ (handleRowSelect data ke false sel rowKey checked).2 = none := by
  refine ⟨?_, ?_, rfl⟩
  · show some (selectedRecords data ke _) = _
    unfold selectedRecords
    congr 1
    apply congrArg
    apply List.filter_congr
    intro p hp
    rw [getD_enum_mem data p hp]
    rfl
  · have h1 : (data.enum.filter (fun p =>
        setHas (handleRowSelect data ke true sel rowKey checked).1
          (ke p.2 p.1))).Sublist data.enum := List.filter_sublist _
    have h2 := h1.map Prod.snd
    rw [show data.enum.map Prod.snd = data from List.enumFrom_map_snd 0 data] at h2
    exact h2

/-- Adding a key to the selection set adjoins exactly that key. -/
theorem setAdd_mem (s : SelectionSet) (a k : Key) :
    k ∈ setAdd s a ↔ k ∈ s ∨ k = a := by
  unfold setAdd setHas
  by_cases h : a ∈ s
  · simp [h]
    intro hk
    subst hk
    exact h
  · simp [h]

/-- Deleting a key from the selection set removes exactly that key. -/
theorem setDelete_mem (s : SelectionSet) (a k : Key) :
    k ∈ setDelete s a ↔ k ∈ s ∧ k ≠ a := by
  unfold setDelete
  simp

/-- **C3**.  Checking row `r` yields the selection set `S ∪ {r}`, unchecking
yields `S \ {r}`; in both cases the membership of every other key is
unchanged, and (starting from a duplicate-free set) the updated set never
contains a key more than once. -/
theorem claim3_selection_toggle (data : List Row) (ke : KeyFn)
    (hasCb : Bool) (sel : SelectionSet) (r : Key) (hnd : sel.Nodup) :
    (∀ k, k ∈ (handleRowSelect data ke hasCb sel r true).1 ↔ k ∈ sel ∨ k = r)
    ∧ (∀ k, k ∈ (handleRowSelect data ke hasCb sel r false).1 ↔ k ∈ sel ∧ k ≠ r)
    ∧ (handleRowSelect data ke hasCb sel r true).1.Nodup
    ∧ (handleRowSelect data ke hasCb sel r false).1.Nodup := by
  refine ⟨fun k => setAdd_mem sel r k, fun k => setDelete_mem sel r k, ?_, ?_⟩
  · show (setAdd sel r).Nodup
    unfold setAdd setHas
    by_cases h : r ∈ sel
    · simp [h, hnd]
    · have hc : sel.contains r = false := by simpa using h
      rw [if_neg (by simp [hc]; exact h)]
      rw [List.nodup_append]
      exact ⟨hnd, List.nodup_singleton r,
        fun a ha hb => h (List.mem_singleton.mp hb ▸ ha)⟩
  · show (setDelete sel r).Nodup
    exact hnd.filter _

/-- Witness for **C3** at the selection set `{1}` and row key `2`. -/
theorem claim3_witness :
    ([Key.num 1] : SelectionSet).Nodup
    ∧ ((∀ k, k ∈ (handleRowSelect [] defaultKeyFn false [Key.num 1] (Key.num 2) true).1
          ↔ k ∈ [Key.num 1] ∨ k = Key.num 2)
      ∧ (∀ k, k ∈ (handleRowSelect [] defaultKeyFn false [Key.num 1] (Key.num 2) false).1
          ↔ k ∈ [Key.num 1] ∧ k ≠ Key.num 2)
      ∧ (handleRowSelect [] defaultKeyFn false [Key.num 1] (Key.num 2) true).1.Nodup
      ∧ (handleRowSelect [] defaultKeyFn false [Key.num 1] (Key.num 2) false).1.Nodup) :=
  ⟨by decide, claim3_selection_toggle [] defaultKeyFn false [Key.num 1]
    (Key.num 2) (by decide)⟩

/-- Membership in a set built from a list is membership in the list. -/
theorem setOfList_mem (l : List Key) (k : Key) :
    k ∈ setOfList l ↔ k ∈ l := by
  unfold setOfList
  have h : ∀ (l : List Key) (acc : SelectionSet),
      k ∈ l.foldl setAdd acc ↔ k ∈ acc ∨ k ∈ l := by
    intro l
    induction l with
    | nil => intro acc; simp
    | cons a t ih =>
        intro acc
        simp only [List.foldl_cons, ih, setAdd_mem, List.mem_cons]
        tauto
  simp [h l []]

/-- **C4**.  Checking the header select-all checkbox makes the selection set
equal to the set of extracted keys of every row of `data` and invokes
`onRowSelect` with the entire data array; unchecking makes the selection
set empty and invokes `onRowSelect` with the empty list. -/
theorem claim4_select_all (data : List Row) (ke : KeyFn) :
    (∀ k, k ∈ (handleSelectAll data ke true true).1 ↔
        ∃ p ∈ data.enum, ke p.2 p.1 = k)
    ∧ (handleSelectAll data ke true true).2 = some data
    ∧ (handleSelectAll data ke true false).1 = []
    ∧ (handleSelectAll data ke true false).2 = some [] := by
  refine ⟨?_, rfl, rfl, rfl⟩
  intro k
  show k ∈ setOfList (data.enum.map (fun p => ke p.2 p.1)) ↔ _
  rw [setOfList_mem, List.mem_map]

/-- **C5**.  Triggering a sort always yields an active sort configuration on
the triggered column's key: with direction `'desc'` exactly when that key
was already the sort key with direction `'asc'`, and `'asc'` in every other
case (other column, current direction `'desc'`, or no active sort). -/
theorem claim5_sort_toggle (sc : Option SortConfig) (k : String) :
    handleSort sc k = some ⟨k, if sc = some ⟨k, .asc⟩ then .desc else .asc⟩ := by
  rcases sc with _ | ⟨ck, d⟩
  · simp [handleSort]
  · rcases d <;> by_cases hck : ck = k <;>
      simp [handleSort, hck]

/-- **C6**.  The sort and selection operations are total: the comparator
returns `-1`, `0` or `1` on every pair of rows (in particular on rows that
lack the sort key or hold values of mixed types), and sorting any data
array yields a permutation of it of the same length. -/
theorem claim6_totality (cfg : SortConfig) (a b : Row) (data : List Row)
    (sc : Option SortConfig) :
    (rowCompare cfg a b = -1 ∨ rowCompare cfg a b = 0 ∨ rowCompare cfg a b = 1)
    ∧ (sortedData data sc).length = data.length
    ∧ (sortedData data sc).Perm data := by
  have hperm : (sortedData data sc).Perm data := by
    rcases sc with _ | c
    · exact List.Perm.refl data
    · exact List.mergeSort_perm data (rowLe c)
  refine ⟨?_, hperm.length_eq, hperm⟩
  unfold rowCompare
  by_cases h1 : jsLt (getField a cfg.key) (getField b cfg.key) = true <;>
    by_cases h2 : jsLt (getField b cfg.key) (getField a cfg.key) = true <;>
      rcases hd : cfg.direction <;>
        simp [h1, h2]

/-- **C7** (counterexample).  The components are not stateless between
renders: on the same props (one row, one sortable column), the empty
interaction history and the history consisting of one sort click produce
different rendered outputs (the sort indicator changes). -/
theorem claim7_counterexample :
    tableRender c7Props (runTable c7Props []) ≠
      tableRender c7Props (runTable c7Props [.sortClick "a"]) := by
  have h1 : runTable c7Props [] = initTableState := rfl
  have h2 : runTable c7Props [.sortClick "a"] = ⟨[], some ⟨"a", .asc⟩⟩ := by
    decide
  rw [h1, h2]
  intro h
  have := congrArg (fun v => match v with
    | TableView.table _ _ _ hd _ => hd
    | _ => []) h
  simp [tableRender, c7Props, initTableState, sortedData, headerCell,
    setSize, setHas] at this

/-- **C7** (amended).  The rendered output of each widget is a function of
the supplied props together with the internal state accumulated from the
interaction history since mount (sort and selection for the table, focus
and password visibility for the input): equal props and histories inducing
equal internal state yield equal output.  Equal props alone do not suffice,
since both widgets carry `useState` state across renders. -/
theorem claim7_amended (tp : TableProps) (h1 h2 : List TableEvent)
    (ip : UzenceInput.InputProps) (g1 g2 : List UzenceInput.InputEvent)
    (ht : runTable tp h1 = runTable tp h2)
    (hi : UzenceInput.runInput ip g1 = UzenceInput.runInput ip g2) :
    tableRender tp (runTable tp h1) = tableRender tp (runTable tp h2)
    ∧ UzenceInput.inputRender ip (UzenceInput.runInput ip g1)
        = UzenceInput.inputRender ip (UzenceInput.runInput ip g2) :=
  ⟨by rw [ht], by rw [hi]⟩

/-- Witness for **C7**: selecting all and deselecting returns the table to
its initial state, and toggling password visibility twice returns the input
to its initial state, so both render as on the matching fresh mount. -/
theorem claim7_witness :
    (runTable c7Props [.selectAllToggle true, .selectAllToggle false]
        = runTable c7Props [])
    ∧ (UzenceInput.runInput UzenceInput.c7Input [.toggleShow, .toggleShow]
        = UzenceInput.runInput UzenceInput.c7Input [])
    ∧ (tableRender c7Props
          (runTable c7Props [.selectAllToggle true, .selectAllToggle false])
        = tableRender c7Props (runTable c7Props [])
      ∧ UzenceInput.inputRender UzenceInput.c7Input
          (UzenceInput.runInput UzenceInput.c7Input [.toggleShow, .toggleShow])
        = UzenceInput.inputRender UzenceInput.c7Input
            (UzenceInput.runInput UzenceInput.c7Input [])) :=
  ⟨by decide, by decide,
    claim7_amended c7Props [.selectAllToggle true, .selectAllToggle false] []
      UzenceInput.c7Input [.toggleShow, .toggleShow] [] (by decide) (by decide)⟩

/-- **C8**.  Computing the sorted view leaves the host's data array
unchanged — the same elements in the same original order — because the sort
mutates only the spread copy `[...data]`; the view itself is the sorted
permutation of the data. -/
theorem claim8_frame (data : List Row) (cfg : Option SortConfig) :
    (computeSortedView data cfg).1 = data
    ∧ (computeSortedView data cfg).2 = sortedData data cfg
    ∧ (sortedData data cfg).Perm data := by
  rcases cfg with _ | c
  · exact ⟨rfl, rfl, List.Perm.refl data⟩
  · exact ⟨rfl, rfl, List.mergeSort_perm data (rowLe c)⟩

end UzenceTable

namespace UzenceInput

/-- **C9**.  For an input of type `'password'`, the effective input type is
`'password'` on mount, becomes `'text'` after one activation of the
visibility toggle, and is `'password'` again after any even number of
activations; the toggle is an involution on the visibility state. -/
theorem claim9_password_toggle (k : Nat) (s : Bool) :
    inputType .password false = .password
    ∧ inputType .password (togglePassword false) = .text
    ∧ inputType .password (togglePassword^[2 * k] false) = .password
    ∧ togglePassword (togglePassword s) = s := by
  have hiter : ∀ n, togglePassword^[2 * n] false = false := by
    intro n
    induction n with
    | zero => rfl
    | succ m ih =>
        rw [show 2 * (m + 1) = 2 * m + 2 by omega,
          Function.iterate_add_apply]
        have h2 : togglePassword^[2] false = false := rfl
        rw [h2, ih]
  refine ⟨by decide, by decide, ?_, ?_⟩
  · rw [hiter k]
    decide
  · cases s <;> rfl

/-- **C10**.  Activating the clear affordance invokes the change handler,
when one is supplied, exactly once with the empty string, and does nothing
otherwise; the affordance is rendered exactly when clearing is enabled, the
value is non-empty, the input is not loading, and the type is not
`'password'`. -/
theorem claim10_clear (v : String) (ld scb : Bool) (ty : InputType) :
    handleClear true = some ""
    ∧ handleClear false = none
    ∧ (clearVisible ld scb v ty = true ↔
        ld = false ∧ scb = true ∧ v ≠ "" ∧ ty ≠ .password) := by
  refine ⟨rfl, rfl, ?_⟩
  unfold clearVisible
  cases ld <;> cases scb <;> by_cases hv : v = "" <;> cases ty <;>
    simp [hv]

end UzenceInput
